import Mathlib

/-!
# Verification of the DipExperiments order-adjudication core

This file shallowly embeds the core of the `dip_tom` package — the game-state
data model (`src/dip_tom/env/state.py`), the map definition and validation
(`src/dip_tom/env/map.py`), the order model and legal-order generator
(`src/dip_tom/env/orders.py`), and the adjudicator
(`src/dip_tom/env/adjudicator.py`) — and proves properties of the embedding.

Python dictionaries are embedded as association lists (`List (key × value)`)
whose lookup returns the first matching entry; Python dicts never hold
duplicate keys, so theorems that need key uniqueness take it as an explicit
well-formedness hypothesis.  Python sets are embedded as lists used only
through membership.
-/

namespace DipTom

/-- `Power = str` in `state.py`. -/
abbrev Power := String

/-- `UnitId = str` in `state.py`. -/
abbrev UnitId := String

/-- `Node = str` in `state.py`. -/
abbrev Node := String

/-- `UnitKey = Tuple[Power, UnitId]` in `adjudicator.py`. -/
abbrev UnitKey := Power × UnitId

/-- The closed order variant set `Order = Hold | Move | Support` of
`orders.py`.  `support` carries `to_node : Option Node`; `none` encodes the
Python `to_node=None` ("support a hold"). -/
inductive Order where
  | hold (power : Power) (unit_id : UnitId)
  | move (power : Power) (unit_id : UnitId) (to_node : Node)
  | support (power : Power) (unit_id : UnitId) (supported_power : Power)
      (supported_unit_id : UnitId) (from_node : Node) (to_node : Option Node)
deriving DecidableEq, Repr

/-- `GameState` of `state.py`: unit locations per power, supply-center
ownership, and the turn counter.  The nested dict
`Dict[Power, Dict[UnitId, Node]]` becomes a nested association list. -/
structure GameState where
  units : List (Power × List (UnitId × Node))
  center_owner : List (Node × Option Power)
  turn : Nat
deriving DecidableEq, Repr

/-- `GameState.all_units`: every `(power, unit_id)` pair present in the
state, in iteration order. -/
def GameState.all_units (s : GameState) : List UnitKey :=
  s.units.flatMap fun pu => pu.2.map fun un => (pu.1, un.1)

/-- `state.units.get(power, {}).get(unit_id)`: the location of a unit, if the
power and the unit exist. -/
def unitLocation (s : GameState) (p : Power) (u : UnitId) : Option Node :=
  match s.units.lookup p with
  | some us => us.lookup u
  | none => none

/-- Location of a unit key. -/
def posOf (s : GameState) (k : UnitKey) : Option Node :=
  unitLocation s k.1 k.2

/-- The flattened list of `(unit key, location)` entries of a state, used to
state the no-two-units-share-a-node invariant decidably. -/
def unitEntries (s : GameState) : List (UnitKey × Node) :=
  s.units.flatMap fun pu => pu.2.map fun un => ((pu.1, un.1), un.2)

/-- Well-formedness inherited from Python dicts: power keys are distinct and
unit ids within each power are distinct. -/
def StateWF (s : GameState) : Prop :=
  (s.units.map Prod.fst).Nodup ∧ ∀ pu ∈ s.units, (pu.2.map Prod.fst).Nodup

/-- The §3 invariant "no two distinct units occupy the same node": the
locations occurring in the state are pairwise distinct. -/
def NoCollision (s : GameState) : Prop :=
  (unitEntries s).Pairwise fun a b => a.2 ≠ b.2

/-! ## Map (`map.py`) -/

/-- `MapDef` of `map.py`. -/
structure MapDef where
  name : String
  nodes : List Node
  edges : List (Node × Node)
  supply_centers : List Node
  home_centers : List (Power × Node)
deriving DecidableEq, Repr

/-- Membership in the `networkx` graph built by `_build_graph`:
`add_nodes_from` inserts `map_def.nodes`, and `add_edges_from` inserts both
endpoints of every edge as nodes as well. -/
def graphHasNode (m : MapDef) (n : Node) : Bool :=
  m.nodes.contains n || m.edges.any fun e => e.1 == n || e.2 == n

/-- `tuple(sorted((left, right)))` in `validate_map`. -/
def canonicalEdge (l r : Node) : Node × Node :=
  if l < r then (l, r) else (r, l)

/-- The edge loop of `validate_map`, carrying the accumulated `edge_set`. -/
def checkEdges (m : MapDef) :
    List (Node × Node) → List (Node × Node) → Except String Unit
  | _, [] => .ok ()
  | edgeSet, (l, r) :: rest =>
    if !(graphHasNode m l) || !(graphHasNode m r) then
      .error "map edge references unknown node"
    else
      let c := canonicalEdge l r
      if edgeSet.contains c then .error "map edges contain duplicates"
      else checkEdges m (c :: edgeSet) rest

/-- `validate_map`: `.ok ()` models a normal return, `.error msg` models
`raise ValueError(msg)`. -/
def validate_map (m : MapDef) : Except String Unit :=
  let node_set := m.nodes.dedup
  if node_set.length ≠ m.nodes.length then .error "map nodes contain duplicates"
  else
    match checkEdges m [] m.edges with
    | .error e => .error e
    | .ok () =>
      if !(m.supply_centers.all fun c => node_set.contains c) then
        .error "supply centers must be a subset of nodes"
      else
        match m.home_centers.find? fun ph => !(node_set.contains ph.2) with
        | some _ => .error "home centers must reference valid nodes"
        | none => .ok ()

/-- `MapDef.neighbors`: the `networkx` neighbors of `node` in the graph built
from the map — the other endpoints of the edges touching `node`, without
duplicates — and `[]` when the node is not in the graph. -/
def MapDef.neighbors (m : MapDef) (node : Node) : List Node :=
  if graphHasNode m node then
    (m.edges.filterMap fun e =>
      if e.1 == node then some e.2
      else if e.2 == node then some e.1
      else none).dedup
  else []

/-- The `neighbors` dict in `legal_orders`
(`{node: map_def.neighbors(node) for node in map_def.nodes}` read through
`.get(x, [])`). -/
def neighborsDict (m : MapDef) (n : Node) : List Node :=
  if m.nodes.contains n then m.neighbors n else []

/-! ## Legal orders (`orders.py`) -/

/-- `legal_orders`: for each unit of `power`, the `Hold`, the moves to each
neighbor of its location, and the support options for every other unit. -/
def legal_orders (s : GameState) (m : MapDef) (power : Power) :
    List (UnitId × List Order) :=
  match s.units.lookup power with
  | none => []
  | some units =>
    units.map fun ul =>
      let unit_id := ul.1
      let location := ul.2
      let supporter_neighbors := neighborsDict m location
      (unit_id,
        [Order.hold power unit_id]
          ++ (neighborsDict m location).map (fun t => Order.move power unit_id t)
          ++ (s.units.flatMap fun pu =>
            pu.2.flatMap fun su =>
              if pu.1 == power && su.1 == unit_id then []
              else
                (if supporter_neighbors.contains su.2 then
                  [Order.support power unit_id pu.1 su.1 su.2 none]
                else [])
                ++ (neighborsDict m su.2).filterMap fun t =>
                  if supporter_neighbors.contains t then
                    some (Order.support power unit_id pu.1 su.1 su.2 (some t))
                  else none))

/-! ## Adjudicator (`adjudicator.py`) -/

/-- `_normalize_orders`: every unit present in the state gets its submitted
order, defaulting to `Hold`; keys absent from the state are dropped. -/
def normalizeOrders (s : GameState) (orders : List (UnitKey × Order)) :
    List (UnitKey × Order) :=
  s.all_units.map fun k => (k, (orders.lookup k).getD (.hold k.1 k.2))

/-- The `move_orders` dict comprehension in `adjudicate_orders`, represented
by each move's key and destination (`adjudicate_orders` only ever reads
`.to_node` of a stored `Move`). -/
def moveOrdersOf (normalized : List (UnitKey × Order)) : List (UnitKey × Node) :=
  normalized.filterMap fun ko =>
    match ko.2 with
    | .move _ _ t => some (ko.1, t)
    | _ => none

/-- The guard chain of the support loop in `_compute_move_strengths`: the
order is a `Support` with a destination, it names `k` as the supported unit,
the supported unit has a `Move` order, the declared `from_node` matches the
supported unit's actual location, and the destinations agree. -/
def isValidMoveSupport (s : GameState) (moveOrders : List (UnitKey × Node))
    (k : UnitKey) (o : Order) : Bool :=
  match o with
  | .support _ _ sp su fromN (some toN) =>
    (sp, su) == k &&
      (match moveOrders.lookup (sp, su) with
       | some mto => (unitLocation s sp su == some fromN) && (mto == toN)
       | none => false)
  | _ => false

/-- The support count accumulated for `k` by `_compute_move_strengths`. -/
def moveSupportCount (s : GameState) (normalized : List (UnitKey × Order))
    (moveOrders : List (UnitKey × Node)) (k : UnitKey) : Nat :=
  normalized.countP fun ko => isValidMoveSupport s moveOrders k ko.2

/-- `move_strengths[k] = 1 + support_counts[k]` from
`_compute_move_strengths` (the source stores it in a dict keyed by the move
orders; only move keys are ever read). -/
def moveStrengthOf (s : GameState) (normalized : List (UnitKey × Order))
    (moveOrders : List (UnitKey × Node)) (k : UnitKey) : Nat :=
  1 + moveSupportCount s normalized moveOrders k

/-- The guard chain of `_compute_hold_strengths`: the order is a `Support`
with `to_node = None`, it names `k`, the supported unit's order is `Hold`,
and the declared `from_node` matches the supported unit's actual location.
`ordersL` is the order dict consulted for the supported unit's order. -/
def isValidHoldSupport (s : GameState) (ordersL : List (UnitKey × Order))
    (k : UnitKey) (o : Order) : Bool :=
  match o with
  | .support _ _ sp su fromN none =>
    (sp, su) == k &&
      (match ordersL.lookup (sp, su) with
       | some (.hold _ _) => unitLocation s sp su == some fromN
       | _ => false)
  | _ => false

/-- The hold-support count accumulated for `k` by `_compute_hold_strengths`. -/
def holdSupportCount (s : GameState) (normalized : List (UnitKey × Order))
    (k : UnitKey) : Nat :=
  normalized.countP fun ko => isValidHoldSupport s normalized k ko.2

/-- The defender strength read as `hold_strengths.get(k, 1)` in
`_resolve_move_success`: the source dict stores `1 + count` exactly for the
keys with `count > 0` and the read defaults to `1 = 1 + 0`, so the value read
is `1 + count` in every case. -/
def holdStrengthOf (s : GameState) (normalized : List (UnitKey × Order))
    (k : UnitKey) : Nat :=
  1 + holdSupportCount s normalized k

/-- `max` of a list of strengths (Python `max` over a nonempty group; the
`0` seed is never the maximum because every strength is `≥ 1`). -/
def listMax (l : List Nat) : Nat := l.foldr max 0

/-- The movers grouped under destination `t` by
`_determine_candidate_moves` (`moves_by_target[t]`). -/
def moversTo (moveOrders : List (UnitKey × Node)) (t : Node) : List UnitKey :=
  (moveOrders.filter fun kn => kn.2 == t).map Prod.fst

/-- The `strongest` list of `_determine_candidate_moves` for destination
`t`: the movers to `t` whose strength attains the group maximum. -/
def strongestAt (moveOrders : List (UnitKey × Node)) (strength : UnitKey → Nat)
    (t : Node) : List UnitKey :=
  (moversTo moveOrders t).filter fun k =>
    strength k == listMax ((moversTo moveOrders t).map strength)

/-- `_determine_candidate_moves`: one candidate per destination whose
`strongest` list is a singleton (ties produce no candidate). -/
def candidateMoves (moveOrders : List (UnitKey × Node))
    (strength : UnitKey → Nat) : List UnitKey :=
  ((moveOrders.map Prod.snd).dedup).filterMap fun t =>
    match strongestAt moveOrders strength t with
    | [k] => some k
    | _ => none

/-- `_unit_at_node`: the first unit found at `n` in state iteration order. -/
def unitAtNode (s : GameState) (n : Node) : Option UnitKey :=
  s.units.findSome? fun pu =>
    pu.2.findSome? fun ul => if ul.2 == n then some (pu.1, ul.1) else none

/-- One pass of the `while True` loop of `_resolve_move_success`: the set of
still-successful movers that are removed this pass. -/
def resolveRemovals (s : GameState) (normalized : List (UnitKey × Order))
    (moveOrders : List (UnitKey × Node)) (mS hS : UnitKey → Nat)
    (successful : List UnitKey) : List UnitKey :=
  successful.filter fun k =>
    let target := (moveOrders.lookup k).getD ""
    match unitAtNode s target with
    | none => false
    | some dk =>
      if dk = k then false
      else
        let dOrder := normalized.lookup dk
        let dMoving := match dOrder with | some (.move _ _ _) => true | _ => false
        if dMoving && decide (dk ∈ successful) then false
        else
          let dStrength := match dOrder with | some (.hold _ _) => hS dk | _ => 1
          decide (mS k ≤ dStrength)

/-- The removal loop of `_resolve_move_success`, iterated with explicit
fuel.  One pass either removes nothing (the `break`) or strictly shrinks the
set, so `length + 1` passes always reach the break — proved below. -/
def resolveLoopAux (s : GameState) (normalized : List (UnitKey × Order))
    (moveOrders : List (UnitKey × Node)) (mS hS : UnitKey → Nat) :
    Nat → List UnitKey → List UnitKey
  | 0, successful => successful
  | fuel + 1, successful =>
    let removals := resolveRemovals s normalized moveOrders mS hS successful
    if removals.isEmpty then successful
    else
      resolveLoopAux s normalized moveOrders mS hS fuel
        (successful.filter fun k => decide (k ∉ removals))

/-- `_resolve_move_success`: the fixed point of the removal passes, starting
from the candidate set.  The fuel `length + 1` is enough for the loop to
exit via its `break` (theorem `resolveLoop_isFixed`). -/
def resolveLoop (s : GameState) (normalized : List (UnitKey × Order))
    (moveOrders : List (UnitKey × Node)) (mS hS : UnitKey → Nat)
    (successful : List UnitKey) : List UnitKey :=
  resolveLoopAux s normalized moveOrders mS hS (successful.length + 1) successful

/-- The `dislodged` set of `_apply_moves`: occupants of successful movers'
destinations that did not themselves move successfully. -/
def dislodgedOf (s : GameState) (moveOrders : List (UnitKey × Node))
    (successful : List UnitKey) : List UnitKey :=
  successful.filterMap fun k =>
    match unitAtNode s ((moveOrders.lookup k).getD "") with
    | some dk => if decide (dk ∈ successful) then none else some dk
    | none => none

/-- The deletion guard of `_apply_moves`: a unit entry survives iff its key
is not in the dislodged set. -/
def notDislodgedKey (dislodged : List UnitKey) (p : Power) (u : UnitId) : Bool :=
  decide ((p, u) ∉ dislodged)

/-- The relocation step of `_apply_moves`: a successful mover's entry is
reassigned to its move's destination, every other entry keeps its node. -/
def newLoc (moveOrders : List (UnitKey × Node)) (successful : List UnitKey)
    (p : Power) (u : UnitId) (loc : Node) : Node :=
  if decide ((p, u) ∈ successful) then (moveOrders.lookup (p, u)).getD loc
  else loc

/-- `_apply_moves` restricted to one power's unit dict: delete the dislodged
entries, then relocate the successful movers. -/
def applyToPower (moveOrders : List (UnitKey × Node))
    (successful dislodged : List UnitKey) (p : Power)
    (us : List (UnitId × Node)) : List (UnitId × Node) :=
  (us.filter fun ul => notDislodgedKey dislodged p ul.1).map fun ul =>
    (ul.1, newLoc moveOrders successful p ul.1 ul.2)

/-- `_apply_moves`: clone the state, delete dislodged units, relocate
successful movers, leave everything else (including `center_owner` and
`turn`) unchanged. -/
def applyMoves (s : GameState) (moveOrders : List (UnitKey × Node))
    (successful : List UnitKey) : GameState :=
  { s with
    units := s.units.map fun pu =>
      (pu.1,
        applyToPower moveOrders successful (dislodgedOf s moveOrders successful)
          pu.1 pu.2) }

/-- The body of `adjudicate_orders` after `_normalize_orders`. -/
def adjudicateNormalized (s : GameState) (normalized : List (UnitKey × Order)) :
    GameState :=
  let moveOrders := moveOrdersOf normalized
  let mS := moveStrengthOf s normalized moveOrders
  let hS := holdStrengthOf s normalized
  let candidates := candidateMoves moveOrders mS
  let successful := resolveLoop s normalized moveOrders mS hS candidates
  applyMoves s moveOrders successful

/-- `adjudicate_orders`: resolve orders and return the next state. -/
def adjudicate_orders (s : GameState) (orders : List (UnitKey × Order)) :
    GameState :=
  adjudicateNormalized s (normalizeOrders s orders)

/-- The `move_orders` computed by `adjudicate_orders` for a given call. -/
def movesFor (s : GameState) (orders : List (UnitKey × Order)) :
    List (UnitKey × Node) :=
  moveOrdersOf (normalizeOrders s orders)

/-- The `move_strengths` computed by `adjudicate_orders` for a given call. -/
def moveStrengthFor (s : GameState) (orders : List (UnitKey × Order)) :
    UnitKey → Nat :=
  moveStrengthOf s (normalizeOrders s orders) (movesFor s orders)

/-- The `hold_strengths` read by `adjudicate_orders` for a given call. -/
def holdStrengthFor (s : GameState) (orders : List (UnitKey × Order)) :
    UnitKey → Nat :=
  holdStrengthOf s (normalizeOrders s orders)

/-- The `candidate_moves` computed by `adjudicate_orders` for a given call. -/
def candidatesFor (s : GameState) (orders : List (UnitKey × Order)) :
    List UnitKey :=
  candidateMoves (movesFor s orders) (moveStrengthFor s orders)

/-- The `successful_moves` computed by `adjudicate_orders` for a given call. -/
def successfulFor (s : GameState) (orders : List (UnitKey × Order)) :
    List UnitKey :=
  resolveLoop s (normalizeOrders s orders) (movesFor s orders)
    (moveStrengthFor s orders) (holdStrengthFor s orders)
    (candidatesFor s orders)

instance (s : GameState) : Decidable (StateWF s) :=
  inferInstanceAs (Decidable ((s.units.map Prod.fst).Nodup
    ∧ ∀ pu ∈ s.units, (pu.2.map Prod.fst).Nodup))

instance (s : GameState) : Decidable (NoCollision s) :=
  inferInstanceAs (Decidable (List.Pairwise
    (fun a b : UnitKey × Node => a.2 ≠ b.2) (unitEntries s)))

/-! ## Concrete scenarios used by the claim theorems and witnesses -/

/-- The state of the C4 counterexample: two unsupported movers (`u1` at `A`,
`u2` at `B`) tie on destination `D`, while `p3`'s supported unit `u3`
attacks `A`. -/
def c4State : GameState :=
  ⟨[("p1", [("u1", "A")]), ("p2", [("u2", "B")]),
    ("p3", [("u3", "C"), ("s3", "E")])], [], 0⟩

/-- The orders of the C4 counterexample. -/
def c4Orders : List (UnitKey × Order) :=
  [(("p1", "u1"), .move "p1" "u1" "D"),
   (("p2", "u2"), .move "p2" "u2" "D"),
   (("p3", "u3"), .move "p3" "u3" "A"),
   (("p3", "s3"), .support "p3" "s3" "p3" "u3" "C" (some "A"))]

/-- The state used to witness C3: a supported attack that dislodges a
defender. -/
def w3State : GameState :=
  ⟨[("p1", [("u1", "A"), ("s1", "C")]), ("p2", [("u2", "B")])], [], 0⟩

/-- The orders used to witness C3. -/
def w3Orders : List (UnitKey × Order) :=
  [(("p1", "u1"), .move "p1" "u1" "B"),
   (("p1", "s1"), .support "p1" "s1" "p1" "u1" "A" (some "B")),
   (("p2", "u2"), .hold "p2" "u2")]

/-- The explicit `Hold` orders for every unit of the state not covered by
`orders` ("orders extended with Hold for every uncovered unit"). -/
def holdExtension (s : GameState) (orders : List (UnitKey × Order)) :
    List (UnitKey × Order) :=
  (s.all_units.filter fun k => (orders.lookup k).isNone).map fun k =>
    (k, Order.hold k.1 k.2)

/-- The state used to witness C6. -/
def w6State : GameState :=
  ⟨[("p1", [("u1", "A")]), ("p2", [("u2", "B")])], [], 0⟩

/-- The (partial) orders used to witness C6: only `u1` gets an order. -/
def w6Orders : List (UnitKey × Order) := [(("p1", "u1"), .move "p1" "u1" "B")]

/-- The state used to witness C5: `p2`'s unit `u2` stands at `B`. -/
def w5State : GameState := ⟨[("p2", [("u2", "B")])], [], 0⟩

/-- The stale support used to witness C5: it claims `u2` moves from `C`,
but `u2` actually stands at `B`. -/
def w5Stale : Order := .support "p1" "s1" "p2" "u2" "C" (some "C")

/-- The move orders used to witness C5. -/
def w5Moves : List (UnitKey × Node) := [(("p2", "u2"), "C")]

/-- The normalized tail used to witness C5. -/
def w5Tail : List (UnitKey × Order) := [(("p2", "u2"), .move "p2" "u2" "C")]

/-- The map used to witness C9: the triangle map of `maps/triangle3.py`. -/
def w9Map : MapDef :=
  ⟨"triangle", ["A", "B", "C"], [("A", "B"), ("B", "C"), ("A", "C")],
    ["A", "B", "C"], [("p1", "A"), ("p2", "B")]⟩

/-- The state used to witness C9: `p1` owns one unit at `A`, `p9` owns
nothing. -/
def w9State : GameState := ⟨[("p1", [("u1", "A")])], [], 0⟩

/-- The normalized orders of the head-to-head swap scenario, used to
witness C8 on real adjudicator data. -/
def w8Normalized : List (UnitKey × Order) :=
  [(("p1", "u1"), .move "p1" "u1" "B"), (("p2", "u2"), .move "p2" "u2" "A")]

/-- The state of the C8 witness. -/
def w8State : GameState :=
  ⟨[("p1", [("u1", "A")]), ("p2", [("u2", "B")])], [], 0⟩

/-- The constant strength function of the C8 witness. -/
def w8Strength : UnitKey → Nat := fun _ => 1

/-- The state of the head-to-head scenario. -/
def c1State : GameState :=
  ⟨[("p1", [("u1", "A")]), ("p2", [("u2", "B")])], [], 0⟩

/-- The unsupported swap orders of the head-to-head scenario. -/
def c1Orders : List (UnitKey × Order) :=
  [(("p1", "u1"), .move "p1" "u1" "B"), (("p2", "u2"), .move "p2" "u2" "A")]

/-- A map whose single edge references the node `"B"` that is not in the
node set. -/
def c2BadMap : MapDef := ⟨"bad", ["A"], [("A", "B")], [], []⟩

/-! ## Association-list lemmas

Python-dict behaviour of `List.lookup` on association lists. -/

section AssocLemmas

variable {α : Type _} {β : Type _} [BEq α]

theorem lookup_append (k : α) (l₁ l₂ : List (α × β)) :
    (l₁ ++ l₂).lookup k =
      match l₁.lookup k with
      | some v => some v
      | none => l₂.lookup k := by
  induction l₁ with
  | nil => simp
  | cons e t ih =>
    obtain ⟨a, b⟩ := e
    simp only [List.cons_append, List.lookup_cons]
    cases h : k == a <;> simp [ih]

variable [LawfulBEq α]

theorem lookup_cons_ne (k k₀ : α) (v₀ : β) (l : List (α × β)) (h : k ≠ k₀) :
    ((k₀, v₀) :: l).lookup k = l.lookup k := by
  have : (k == k₀) = false := beq_eq_false_iff_ne.mpr h
  simp [List.lookup_cons, this]

theorem lookup_map_keyed (k : α) (l : List α) (f : α → β) :
    (l.map fun a => (a, f a)).lookup k =
      if k ∈ l then some (f k) else none := by
  induction l with
  | nil => simp
  | cons a t ih =>
    simp only [List.map_cons, List.lookup_cons]
    cases h : k == a with
    | true =>
      have : k = a := eq_of_beq h
      subst this
      simp
    | false =>
      have : k ≠ a := ne_of_beq_false h
      simp [ih, this]

theorem lookup_eq_none_of_forall (k : α) (l : List (α × β))
    (h : ∀ e ∈ l, e.1 ≠ k) : l.lookup k = none := by
  induction l with
  | nil => simp
  | cons e t ih =>
    obtain ⟨a, b⟩ := e
    have ha : a ≠ k := h (a, b) (List.mem_cons_self (a, b) t)
    have hf : (k == a) = false := beq_eq_false_iff_ne.mpr (Ne.symm ha)
    simp only [List.lookup_cons, hf]
    exact ih fun e he => h e (List.mem_cons_of_mem _ he)

theorem lookup_mem {k : α} {v : β} {l : List (α × β)}
    (h : l.lookup k = some v) : (k, v) ∈ l := by
  induction l with
  | nil => simp at h
  | cons e t ih =>
    obtain ⟨a, b⟩ := e
    simp only [List.lookup_cons] at h
    by_cases hk : k = a
    · subst hk
      simp only [beq_self_eq_true] at h
      injection h with hbv
      subst hbv
      exact List.mem_cons_self _ _
    · have hf : (k == a) = false := beq_eq_false_iff_ne.mpr hk
      rw [hf] at h
      exact List.mem_cons_of_mem _ (ih h)

theorem lookup_of_mem_of_nodup {k : α} {v : β} {l : List (α × β)}
    (hnd : (l.map Prod.fst).Nodup) (h : (k, v) ∈ l) : l.lookup k = some v := by
  induction l with
  | nil => simp at h
  | cons e t ih =>
    obtain ⟨a, b⟩ := e
    simp only [List.map_cons, List.nodup_cons] at hnd
    rcases List.mem_cons.mp h with heq | hmem
    · injection heq with h1 h2
      subst h1
      subst h2
      simp [List.lookup_cons]
    · have hka : (k == a) = false := by
        apply beq_eq_false_iff_ne.mpr
        intro e
        subst e
        exact hnd.1 (List.mem_map.mpr ⟨(k, v), hmem, rfl⟩)
      simp only [List.lookup_cons, hka]
      exact ih hnd.2 hmem

theorem lookup_map_pair_value (k : α) (l : List (α × β)) {γ : Type _}
    (f : α → β → γ) :
    (l.map fun ab => (ab.1, f ab.1 ab.2)).lookup k = (l.lookup k).map (f k) := by
  induction l with
  | nil => simp
  | cons e t ih =>
    obtain ⟨a, b⟩ := e
    simp only [List.map_cons, List.lookup_cons]
    cases h : k == a with
    | true =>
      have : k = a := eq_of_beq h
      subst this
      simp
    | false => simp [ih]

theorem lookup_filter_key (k : α) (l : List (α × β)) (q : α → Bool) :
    (l.filter fun ab => q ab.1).lookup k =
      if q k then l.lookup k else none := by
  induction l with
  | nil => simp
  | cons e t ih =>
    obtain ⟨a, b⟩ := e
    cases hk : k == a with
    | true =>
      have : k = a := eq_of_beq hk
      subst this
      cases hq : q k with
      | true => simp [List.filter_cons, hq, List.lookup_cons]
      | false => simp [List.filter_cons, hq, ih]
    | false =>
      cases hq : q a with
      | true => simp [List.filter_cons, hq, List.lookup_cons, hk, ih]
      | false =>
        have hne : k ≠ a := ne_of_beq_false hk
        cases hqk : q k with
        | true => simp [List.filter_cons, hq, ih, hqk, List.lookup_cons, hk]
        | false => simp [List.filter_cons, hq, ih, hqk]

end AssocLemmas

/-! ## Key plumbing for the adjudication pipeline -/

theorem normalizeOrders_keys (s : GameState) (orders : List (UnitKey × Order)) :
    (normalizeOrders s orders).map Prod.fst = s.all_units := by
  unfold normalizeOrders
  rw [List.map_map]
  have hcomp : (Prod.fst ∘ fun k : UnitKey =>
      (k, (orders.lookup k).getD (Order.hold k.1 k.2))) = id := rfl
  rw [hcomp, List.map_id]

theorem moveOrdersOf_keys_sublist (normalized : List (UnitKey × Order)) :
    ((moveOrdersOf normalized).map Prod.fst).Sublist (normalized.map Prod.fst) := by
  induction normalized with
  | nil => simp [moveOrdersOf]
  | cons e t ih =>
    obtain ⟨k, o⟩ := e
    cases o with
    | move p u n =>
      simpa [moveOrdersOf] using ih.cons₂ k
    | hold p u =>
      simpa [moveOrdersOf] using ih.trans (List.sublist_cons_self k _)
    | support p u sp su fn tn =>
      simpa [moveOrdersOf] using ih.trans (List.sublist_cons_self k _)

theorem all_units_nodup (s : GameState) (h : StateWF s) : s.all_units.Nodup := by
  unfold GameState.all_units
  rw [List.nodup_flatMap]
  constructor
  · intro pu hpu
    have hinner : pu.2.map (fun un => (pu.1, un.1))
        = (pu.2.map Prod.fst).map fun u => (pu.1, u) := by
      simp [List.map_map]
    rw [hinner]
    exact (h.2 pu hpu).map fun a b hab => congrArg Prod.snd hab
  · have hfst : s.units.Pairwise fun a b => a.1 ≠ b.1 :=
      List.pairwise_map.mp h.1
    apply hfst.imp
    intro a b hab x hxa hxb
    obtain ⟨ua, _, hea⟩ := List.mem_map.mp hxa
    obtain ⟨ub, _, heb⟩ := List.mem_map.mp hxb
    apply hab
    have h1 := congrArg Prod.fst hea
    have h2 := congrArg Prod.fst heb
    exact h1.trans h2.symm

theorem moveOrders_keys_nodup (s : GameState)
    (orders : List (UnitKey × Order)) (h : StateWF s) :
    ((moveOrdersOf (normalizeOrders s orders)).map Prod.fst).Nodup :=
  (moveOrdersOf_keys_sublist _).nodup
    (normalizeOrders_keys s orders ▸ all_units_nodup s h)

/-! ## Candidate-selection lemmas -/

theorem mem_moversTo {mo : List (UnitKey × Node)} {t : Node} {k : UnitKey}
    (h : k ∈ moversTo mo t) : (k, t) ∈ mo := by
  obtain ⟨e, he, hek⟩ := List.mem_map.mp h
  obtain ⟨hmem, hbeq⟩ := List.mem_filter.mp he
  obtain ⟨k', t'⟩ := e
  cases hek
  cases eq_of_beq hbeq
  exact hmem

theorem strongestAt_subset {mo : List (UnitKey × Node)} {strength : UnitKey → Nat}
    {t : Node} {k : UnitKey} (h : k ∈ strongestAt mo strength t) : (k, t) ∈ mo :=
  mem_moversTo (List.mem_filter.mp h).1

theorem candidateMoves_spec {mo : List (UnitKey × Node)}
    {strength : UnitKey → Nat} {k : UnitKey} (h : k ∈ candidateMoves mo strength) :
    ∃ t, strongestAt mo strength t = [k] := by
  obtain ⟨t, _, hft⟩ := List.mem_filterMap.mp h
  refine ⟨t, ?_⟩
  revert hft
  cases hs : strongestAt mo strength t with
  | nil => intro hf; cases hf
  | cons a l =>
    cases l with
    | nil =>
      intro hf
      injection hf with hf
      rw [hf]
    | cons b l' => intro hf; cases hf

theorem candidate_lookup {mo : List (UnitKey × Node)} {strength : UnitKey → Nat}
    {k : UnitKey} (hnd : (mo.map Prod.fst).Nodup)
    (h : k ∈ candidateMoves mo strength) :
    ∃ t, mo.lookup k = some t ∧ strongestAt mo strength t = [k] := by
  obtain ⟨t, hst⟩ := candidateMoves_spec h
  have hmem : (k, t) ∈ mo :=
    strongestAt_subset (hst ▸ List.mem_cons_self k [])
  exact ⟨t, lookup_of_mem_of_nodup hnd hmem, hst⟩

theorem candidate_injective {mo : List (UnitKey × Node)}
    {strength : UnitKey → Nat} (hnd : (mo.map Prod.fst).Nodup) {k₁ k₂ : UnitKey}
    (h₁ : k₁ ∈ candidateMoves mo strength) (h₂ : k₂ ∈ candidateMoves mo strength)
    (ht : mo.lookup k₁ = mo.lookup k₂) : k₁ = k₂ := by
  obtain ⟨t₁, hl₁, hs₁⟩ := candidate_lookup hnd h₁
  obtain ⟨t₂, hl₂, hs₂⟩ := candidate_lookup hnd h₂
  rw [hl₁, hl₂] at ht
  injection ht with ht
  subst ht
  rw [hs₁] at hs₂
  exact List.singleton_inj.mp hs₂

/-! ## Occupancy lemmas -/

theorem unitEntries_keys (s : GameState) :
    (unitEntries s).map Prod.fst = s.all_units := by
  unfold unitEntries GameState.all_units
  rw [List.map_flatMap]
  congr 1
  funext pu
  rw [List.map_map]
  rfl

theorem unitAtNode_sound {s : GameState} {n : Node} {k : UnitKey}
    (h : unitAtNode s n = some k) : (k, n) ∈ unitEntries s := by
  unfold unitAtNode at h
  obtain ⟨pu, hpu, hinner⟩ := List.exists_of_findSome?_eq_some h
  obtain ⟨ul, hul, hif⟩ := List.exists_of_findSome?_eq_some hinner
  by_cases hb : (ul.2 == n) = true
  · rw [if_pos hb] at hif
    injection hif with hif
    have hn : ul.2 = n := eq_of_beq hb
    apply List.mem_flatMap.mpr
    refine ⟨pu, hpu, List.mem_map.mpr ⟨ul, hul, ?_⟩⟩
    rw [hif, hn]
  · rw [if_neg hb] at hif
    cases hif

theorem unitAtNode_complete {s : GameState} {n : Node} {k : UnitKey}
    (h : (k, n) ∈ unitEntries s) : ∃ k', unitAtNode s n = some k' := by
  cases hu : unitAtNode s n with
  | some k' => exact ⟨k', rfl⟩
  | none =>
    exfalso
    unfold unitAtNode at hu
    rw [List.findSome?_eq_none_iff] at hu
    obtain ⟨pu, hpu, hx⟩ := List.mem_flatMap.mp h
    obtain ⟨un, hun, heq⟩ := List.mem_map.mp hx
    have hinner := hu pu hpu
    rw [List.findSome?_eq_none_iff] at hinner
    have h2 := hinner un hun
    have hn : un.2 = n := congrArg Prod.snd heq
    rw [if_pos (beq_iff_eq.mpr hn)] at h2
    cases h2

theorem posOf_eq_some_iff {s : GameState} (hwf : StateWF s) {k : UnitKey}
    {n : Node} : posOf s k = some n ↔ (k, n) ∈ unitEntries s := by
  obtain ⟨p, u⟩ := k
  constructor
  · intro h
    unfold posOf unitLocation at h
    cases hp : s.units.lookup p with
    | none => rw [hp] at h; cases h
    | some us =>
      rw [hp] at h
      exact List.mem_flatMap.mpr
        ⟨(p, us), lookup_mem hp, List.mem_map.mpr ⟨(u, n), lookup_mem h, rfl⟩⟩
  · intro h
    obtain ⟨pu, hpu, hx⟩ := List.mem_flatMap.mp h
    obtain ⟨un, hun, heq⟩ := List.mem_map.mp hx
    obtain ⟨p', us⟩ := pu
    obtain ⟨u', n'⟩ := un
    injection heq with h1 h2
    injection h1 with hp1 hu1
    subst hp1
    subst hu1
    subst h2
    unfold posOf unitLocation
    rw [lookup_of_mem_of_nodup hwf.1 hpu]
    exact lookup_of_mem_of_nodup (hwf.2 _ hpu) hun

theorem noCollision_iff {s : GameState} (hwf : StateWF s) :
    NoCollision s ↔
      ∀ k₁ k₂ n, posOf s k₁ = some n → posOf s k₂ = some n → k₁ = k₂ := by
  constructor
  · intro hnc k₁ k₂ n h₁ h₂
    have m₁ := (posOf_eq_some_iff hwf).mp h₁
    have m₂ := (posOf_eq_some_iff hwf).mp h₂
    by_contra hne
    have hpair : ((k₁, n) : UnitKey × Node) ≠ (k₂, n) := fun e =>
      hne (congrArg Prod.fst e)
    exact hnc.forall (fun a b hab => hab.symm) m₁ m₂ hpair rfl
  · intro hinj
    unfold NoCollision
    have hkeys : ((unitEntries s).map Prod.fst).Nodup := by
      rw [unitEntries_keys]
      exact all_units_nodup s hwf
    have hpw : (unitEntries s).Pairwise fun a b => a.1 ≠ b.1 :=
      List.pairwise_map.mp hkeys
    apply hpw.imp_of_mem
    intro a b ha hb hR heq
    apply hR
    have pa : posOf s a.1 = some a.2 := by
      apply (posOf_eq_some_iff hwf).mpr
      obtain ⟨a1, a2⟩ := a
      exact ha
    have pb : posOf s b.1 = some b.2 := by
      apply (posOf_eq_some_iff hwf).mpr
      obtain ⟨b1, b2⟩ := b
      exact hb
    rw [heq] at pa
    exact hinj a.1 b.1 b.2 pa pb

/-! ## Characterization of `_apply_moves` -/

/-- A unit's position after `_apply_moves`: gone when dislodged, the move
destination when it moved successfully, its old node otherwise. -/
theorem posOf_applyMoves (s : GameState) (mo : List (UnitKey × Node))
    (succ : List UnitKey) (k : UnitKey) :
    posOf (applyMoves s mo succ) k =
      match posOf s k with
      | none => none
      | some loc =>
        if k ∈ dislodgedOf s mo succ then none
        else if k ∈ succ then some ((mo.lookup k).getD loc)
        else some loc := by
  obtain ⟨p, u⟩ := k
  unfold posOf unitLocation applyMoves
  rw [lookup_map_pair_value p s.units
    (applyToPower mo succ (dislodgedOf s mo succ))]
  cases hp : s.units.lookup p with
  | none => rfl
  | some us =>
    simp only [Option.map_some']
    unfold applyToPower
    rw [lookup_map_pair_value u _ (newLoc mo succ p)]
    rw [lookup_filter_key u us
      (fun u' => notDislodgedKey (dislodgedOf s mo succ) p u')]
    unfold notDislodgedKey newLoc
    by_cases hd : (p, u) ∈ dislodgedOf s mo succ
    · have hdec : decide ((p, u) ∉ dislodgedOf s mo succ) = false := by
        simp [hd]
      rw [hdec]
      cases us.lookup u <;> simp [hd]
    · have hdec : decide ((p, u) ∉ dislodgedOf s mo succ) = true := by
        simp [hd]
      rw [hdec]
      cases hl : us.lookup u with
      | none => rfl
      | some loc =>
        by_cases hsucc : (p, u) ∈ succ <;> simp [hd, hsucc]

/-- `_apply_moves` preserves dict well-formedness: it keeps the power keys
and only filters and revalues each power's unit entries. -/
theorem applyMoves_wf (s : GameState) (mo : List (UnitKey × Node))
    (succ : List UnitKey) (h : StateWF s) : StateWF (applyMoves s mo succ) := by
  constructor
  · have hk : (applyMoves s mo succ).units.map Prod.fst
        = s.units.map Prod.fst := by
      unfold applyMoves
      rw [List.map_map]
      rfl
    rw [hk]
    exact h.1
  · intro pu hpu
    obtain ⟨qu, hqu, heq⟩ := List.mem_map.mp hpu
    rw [← heq]
    show ((applyToPower mo succ (dislodgedOf s mo succ) qu.1 qu.2).map
      Prod.fst).Nodup
    have hkeys : (applyToPower mo succ (dislodgedOf s mo succ) qu.1 qu.2).map
          Prod.fst
        = (qu.2.filter fun ul =>
            notDislodgedKey (dislodgedOf s mo succ) qu.1 ul.1).map Prod.fst := by
      unfold applyToPower
      rw [List.map_map]
      rfl
    rw [hkeys]
    exact ((List.filter_sublist _).map Prod.fst).nodup (h.2 qu hqu)

/-- The defender standing on a successful mover's destination is dislodged
when it is not itself a successful mover. -/
theorem mem_dislodgedOf {s : GameState} {mo : List (UnitKey × Node)}
    {succ : List UnitKey} {k dk : UnitKey} {t : Node}
    (hk : k ∈ succ) (hlk : mo.lookup k = some t)
    (hd : unitAtNode s t = some dk) (hdn : dk ∉ succ) :
    dk ∈ dislodgedOf s mo succ := by
  unfold dislodgedOf
  apply List.mem_filterMap.mpr
  refine ⟨k, hk, ?_⟩
  rw [hlk]
  simp only [Option.getD_some]
  rw [hd]
  simp [hdn]

/-! ## C6 — missing orders default to Hold, extraneous keys are ignored -/

theorem normalize_append_holdExtension (s : GameState)
    (orders : List (UnitKey × Order)) :
    normalizeOrders s (orders ++ holdExtension s orders)
      = normalizeOrders s orders := by
  unfold normalizeOrders
  apply List.map_congr_left
  intro k hk
  rw [lookup_append]
  cases h : orders.lookup k with
  | some v => simp
  | none =>
    have hmem : k ∈ s.all_units.filter fun k => (orders.lookup k).isNone := by
      simp [List.mem_filter, hk, h]
    simp only [holdExtension, lookup_map_keyed, hmem, if_pos]
    simp

/-- C6: `adjudicate_orders` treats units without an order as holding — the
result is unchanged when `orders` is extended with explicit `Hold` orders
for every uncovered unit — and an order whose key does not denote a unit of
the state is ignored entirely. -/
theorem c6_missing_orders_default_to_hold (s : GameState)
    (orders : List (UnitKey × Order)) (k₀ : UnitKey) (o₀ : Order)
    (h : k₀ ∉ s.all_units) :
    adjudicate_orders s (orders ++ holdExtension s orders)
        = adjudicate_orders s orders
      ∧ adjudicate_orders s ((k₀, o₀) :: orders) = adjudicate_orders s orders := by
  constructor
  · unfold adjudicate_orders
    rw [normalize_append_holdExtension]
  · unfold adjudicate_orders
    congr 1
    unfold normalizeOrders
    apply List.map_congr_left
    intro k hk
    have hne : k ≠ k₀ := fun e => h (e ▸ hk)
    rw [lookup_cons_ne _ _ _ _ hne]

/-- Witness for C6 at a concrete state: extending the orders with the
`Hold` defaults, or prepending an order for the nonexistent unit
`("p9", "u9")`, leaves the adjudication unchanged. -/
theorem c6_missing_orders_default_to_hold_witness :
    adjudicate_orders w6State (w6Orders ++ holdExtension w6State w6Orders)
        = adjudicate_orders w6State w6Orders
      ∧ adjudicate_orders w6State ((("p9", "u9"), Order.hold "p9" "u9") :: w6Orders)
        = adjudicate_orders w6State w6Orders :=
  c6_missing_orders_default_to_hold w6State w6Orders ("p9", "u9")
    (Order.hold "p9" "u9") (by decide)

/-! ## C5 — stale supports contribute zero strength -/

theorem lookup_insert_ne (k₀ : UnitKey) (o₀ : Order)
    (l1 l2 : List (UnitKey × Order)) (K : UnitKey) (hK : K ≠ k₀) :
    (l1 ++ (k₀, o₀) :: l2).lookup K = (l1 ++ l2).lookup K := by
  rw [lookup_append, lookup_append, lookup_cons_ne _ _ _ _ hK]

/-- C5: a `Support` order whose declared `from_node` differs from the
supported unit's actual location fails the validity guard of both
`_compute_move_strengths` and `_compute_hold_strengths` for every key, so
dropping it from a duplicate-free order mapping changes no move strength
and no hold strength; adjudication itself never fails (the embedding is a
total function). -/
theorem c5_stale_support_contributes_zero (s : GameState)
    (moveOrders : List (UnitKey × Node)) (ordersL l1 l2 : List (UnitKey × Order))
    (k₀ : UnitKey) (p u sp su : String) (fromN : Node) (tn : Option Node)
    (hstale : unitLocation s sp su ≠ some fromN)
    (hkeys : ∀ e ∈ l1 ++ l2, e.1 ≠ k₀) :
    (∀ k, isValidMoveSupport s moveOrders k (.support p u sp su fromN tn) = false)
      ∧ (∀ k, isValidHoldSupport s ordersL k (.support p u sp su fromN tn) = false)
      ∧ (∀ k, moveStrengthOf s (l1 ++ (k₀, .support p u sp su fromN tn) :: l2)
            moveOrders k = moveStrengthOf s (l1 ++ l2) moveOrders k)
      ∧ (∀ k, holdStrengthOf s (l1 ++ (k₀, .support p u sp su fromN tn) :: l2) k
            = holdStrengthOf s (l1 ++ l2) k) := by
  have hbeq : (unitLocation s sp su == some fromN) = false :=
    beq_eq_false_iff_ne.mpr hstale
  have hmove : ∀ (mo : List (UnitKey × Node)) (k : UnitKey),
      isValidMoveSupport s mo k (.support p u sp su fromN tn) = false := by
    intro mo k
    cases tn with
    | none => rfl
    | some toN =>
      simp only [isValidMoveSupport]
      cases mo.lookup (sp, su) with
      | none => simp
      | some mto => simp [hbeq]
  have hhold : ∀ (oL : List (UnitKey × Order)) (k : UnitKey),
      isValidHoldSupport s oL k (.support p u sp su fromN tn) = false := by
    intro oL k
    cases tn with
    | some toN => rfl
    | none =>
      simp only [isValidHoldSupport]
      cases h : oL.lookup (sp, su) with
      | none => simp
      | some o' => cases o' <;> simp [hbeq]
  refine ⟨hmove moveOrders, hhold ordersL, ?_, ?_⟩
  · intro k
    simp [moveStrengthOf, moveSupportCount, List.countP_append,
      List.countP_cons, hmove moveOrders]
  · intro k
    have hk₀L : (l1 ++ (k₀, Order.support p u sp su fromN tn) :: l2).lookup k₀
        = some (.support p u sp su fromN tn) := by
      rw [lookup_append]
      rw [lookup_eq_none_of_forall k₀ l1
        (fun e he => hkeys e (List.mem_append_left _ he))]
      simp [List.lookup_cons]
    have hk₀L' : (l1 ++ l2).lookup k₀ = none :=
      lookup_eq_none_of_forall _ _ hkeys
    have hpred : ∀ (k' : UnitKey) (o : Order),
        isValidHoldSupport s (l1 ++ (k₀, .support p u sp su fromN tn) :: l2) k' o
          = isValidHoldSupport s (l1 ++ l2) k' o := by
      intro k' o
      cases o with
      | hold _ _ => rfl
      | move _ _ _ => rfl
      | support p' u' sp' su' fromN' tn' =>
        cases tn' with
        | some _ => rfl
        | none =>
          simp only [isValidHoldSupport]
          by_cases hK : (sp', su') = k₀
          · rw [hK, hk₀L, hk₀L']
          · rw [lookup_insert_ne _ _ _ _ _ hK]
    simp only [holdStrengthOf, holdSupportCount]
    have hcongr :
        (l1 ++ l2).countP (fun ko =>
            isValidHoldSupport s (l1 ++ (k₀, .support p u sp su fromN tn) :: l2) k ko.2)
          = (l1 ++ l2).countP (fun ko => isValidHoldSupport s (l1 ++ l2) k ko.2) :=
      List.countP_congr fun ko _ => by rw [hpred k ko.2]
    have hdrop :
        (l1 ++ (k₀, Order.support p u sp su fromN tn) :: l2).countP
            (fun ko => isValidHoldSupport s
              (l1 ++ (k₀, .support p u sp su fromN tn) :: l2) k ko.2)
          = (l1 ++ l2).countP (fun ko => isValidHoldSupport s
              (l1 ++ (k₀, .support p u sp su fromN tn) :: l2) k ko.2) := by
      simp [List.countP_append, List.countP_cons, hhold]
    rw [hdrop, hcongr]

/-- Witness for C5 at a concrete state: the stale support fails both
validity guards and removing it changes neither the move strength nor the
hold strength of the supported unit. -/
theorem c5_stale_support_contributes_zero_witness :
    isValidMoveSupport w5State w5Moves ("p2", "u2") w5Stale = false
      ∧ isValidHoldSupport w5State w5Tail ("p2", "u2") w5Stale = false
      ∧ moveStrengthOf w5State ([] ++ (("p1", "s1"), w5Stale) :: w5Tail) w5Moves
          ("p2", "u2")
        = moveStrengthOf w5State ([] ++ w5Tail) w5Moves ("p2", "u2")
      ∧ holdStrengthOf w5State ([] ++ (("p1", "s1"), w5Stale) :: w5Tail) ("p2", "u2")
        = holdStrengthOf w5State ([] ++ w5Tail) ("p2", "u2") := by
  have h := c5_stale_support_contributes_zero w5State w5Moves w5Tail [] w5Tail
    ("p1", "s1") "p1" "s1" "p2" "u2" "C" (some "C") (by decide) (by decide)
  exact ⟨h.1 _, h.2.1 _, h.2.2.1 _, h.2.2.2 _⟩

/-! ## C9 — legal orders: Hold is always offered, unit-less powers get `{}` -/

/-- C9: `legal_orders` maps exactly the units owned by `power` to their
order lists, every listed unit's list contains its `Hold` order (hence is
nonempty), and a power that owns no units gets the empty mapping. -/
theorem c9_legal_orders_contain_hold (s : GameState) (m : MapDef)
    (power : Power) :
    (∀ uid lst, (uid, lst) ∈ legal_orders s m power →
        Order.hold power uid ∈ lst)
      ∧ (legal_orders s m power).map Prod.fst
          = ((s.units.lookup power).getD []).map Prod.fst
      ∧ (s.units.lookup power = none ∨ s.units.lookup power = some [] →
          legal_orders s m power = []) := by
  unfold legal_orders
  cases h : s.units.lookup power with
  | none => simp
  | some units =>
    refine ⟨?_, by simp [List.map_map], ?_⟩
    · intro uid lst hmem
      obtain ⟨ul, _, hul⟩ := List.mem_map.mp hmem
      obtain ⟨h1, h2⟩ := Prod.mk.injEq .. ▸ hul
      subst h1
      subst h2
      simp
    · rintro (he | he)
      · cases he
      · injection he with he
        subst he
        simp

/-- Witness for C9 at a concrete state and map: `u1`'s legal-order list
contains its `Hold`, and the unit-less power `p9` gets the empty mapping. -/
theorem c9_legal_orders_contain_hold_witness :
    Order.hold "p1" "u1" ∈ ((legal_orders w9State w9Map "p1").lookup "u1").getD []
      ∧ legal_orders w9State w9Map "p9" = [] :=
  ⟨(c9_legal_orders_contain_hold w9State w9Map "p1").1 "u1" _ (by decide),
   (c9_legal_orders_contain_hold w9State w9Map "p9").2.2 (Or.inl (by decide))⟩

/-! ## C8 — the fixed-point resolution loop terminates -/

/-- A nonempty removal pass strictly shrinks the success set. -/
theorem filter_removals_length_lt (successful removals : List UnitKey)
    (hsub : ∀ r ∈ removals, r ∈ successful) (hne : removals ≠ []) :
    (successful.filter fun k => decide (k ∉ removals)).length
      < successful.length := by
  apply List.length_filter_lt_length_iff_exists.mpr
  obtain ⟨r, hr⟩ := List.exists_mem_of_ne_nil removals hne
  exact ⟨r, hsub r hr, by simp [hr]⟩

theorem resolveRemovals_subset (s : GameState)
    (nm : List (UnitKey × Order)) (mo : List (UnitKey × Node))
    (mS hS : UnitKey → Nat) (successful : List UnitKey) :
    ∀ r ∈ resolveRemovals s nm mo mS hS successful, r ∈ successful := by
  intro r hr
  exact (List.mem_filter.mp hr).1

/-- The removal loop is insensitive to fuel once the fuel exceeds the
length of the success set: the loop reaches its `break` first. -/
theorem resolveLoopAux_fuel_irrelevant (s : GameState)
    (nm : List (UnitKey × Order)) (mo : List (UnitKey × Node))
    (mS hS : UnitKey → Nat) :
    ∀ n (succ : List UnitKey) (fuel₁ fuel₂ : Nat), succ.length < n →
      succ.length + 1 ≤ fuel₁ → succ.length + 1 ≤ fuel₂ →
      resolveLoopAux s nm mo mS hS fuel₁ succ
        = resolveLoopAux s nm mo mS hS fuel₂ succ := by
  intro n
  induction n with
  | zero => intro succ f₁ f₂ h; omega
  | succ n ih =>
    intro succ f₁ f₂ hlen h₁ h₂
    obtain ⟨g₁, rfl⟩ : ∃ g, f₁ = g + 1 := ⟨f₁ - 1, by omega⟩
    obtain ⟨g₂, rfl⟩ : ∃ g, f₂ = g + 1 := ⟨f₂ - 1, by omega⟩
    simp only [resolveLoopAux]
    by_cases he : (resolveRemovals s nm mo mS hS succ).isEmpty
    · simp [he]
    · have hne : resolveRemovals s nm mo mS hS succ ≠ [] :=
        List.isEmpty_eq_false.mp (Bool.not_eq_true _ ▸ Bool.of_not_eq_true he)
      have hlt : (succ.filter fun k =>
            decide (k ∉ resolveRemovals s nm mo mS hS succ)).length
          < succ.length :=
        filter_removals_length_lt succ _
          (resolveRemovals_subset s nm mo mS hS succ) hne
      simp only [he, if_false]
      exact ih (succ.filter fun k =>
          decide (k ∉ resolveRemovals s nm mo mS hS succ)) g₁ g₂
        (by omega) (by omega) (by omega)

/-- The result of the removal loop is a fixed point: one more pass over it
removes nothing (the loop exits through its `break`). -/
theorem resolveLoop_isFixed (s : GameState) (nm : List (UnitKey × Order))
    (mo : List (UnitKey × Node)) (mS hS : UnitKey → Nat) :
    ∀ n (succ : List UnitKey), succ.length < n →
      resolveRemovals s nm mo mS hS (resolveLoop s nm mo mS hS succ) = [] := by
  intro n
  induction n with
  | zero => intro succ h; omega
  | succ n ih =>
    intro succ hlen
    unfold resolveLoop
    simp only [resolveLoopAux]
    by_cases he : (resolveRemovals s nm mo mS hS succ).isEmpty
    · simpa [he] using List.isEmpty_iff.mp he
    · have hne : resolveRemovals s nm mo mS hS succ ≠ [] :=
        List.isEmpty_eq_false.mp (Bool.not_eq_true _ ▸ Bool.of_not_eq_true he)
      set F := succ.filter fun k =>
        decide (k ∉ resolveRemovals s nm mo mS hS succ) with hF
      have hlt : F.length < succ.length :=
        filter_removals_length_lt succ _
          (resolveRemovals_subset s nm mo mS hS succ) hne
      simp only [he, if_false]
      rw [resolveLoopAux_fuel_irrelevant s nm mo mS hS (F.length + 1) F
        succ.length (F.length + 1) (by omega) (by omega) (by omega)]
      have hrec := ih F (by omega)
      unfold resolveLoop at hrec
      exact hrec

/-- The removal loop only ever filters the success set. -/
theorem resolveLoopAux_sublist (s : GameState) (nm : List (UnitKey × Order))
    (mo : List (UnitKey × Node)) (mS hS : UnitKey → Nat) :
    ∀ (fuel : Nat) (succ : List UnitKey),
      (resolveLoopAux s nm mo mS hS fuel succ).Sublist succ := by
  intro fuel
  induction fuel with
  | zero => intro succ; exact List.Sublist.refl succ
  | succ fuel ih =>
    intro succ
    simp only [resolveLoopAux]
    by_cases he : (resolveRemovals s nm mo mS hS succ).isEmpty
    · simp [he]
    · simp only [he, if_false]
      exact ((ih _).trans (List.filter_sublist succ))

/-- C8: the `while True` loop of `_resolve_move_success` terminates for
every finite input — iterating it with any fuel of at least `|successful| + 1`
passes yields the same final success set (the loop reaches its `break`
within that many passes), and the final set is a genuine fixed point: one
further removal pass removes nothing. -/
theorem c8_resolution_loop_terminates (s : GameState)
    (nm : List (UnitKey × Order)) (mo : List (UnitKey × Node))
    (mS hS : UnitKey → Nat) (init : List UnitKey) (fuel : Nat)
    (hfuel : init.length + 1 ≤ fuel) :
    resolveLoopAux s nm mo mS hS fuel init = resolveLoop s nm mo mS hS init
      ∧ resolveRemovals s nm mo mS hS (resolveLoop s nm mo mS hS init) = [] :=
  ⟨resolveLoopAux_fuel_irrelevant s nm mo mS hS (init.length + 1) init fuel
      (init.length + 1) (by omega) hfuel (by omega),
    resolveLoop_isFixed s nm mo mS hS (init.length + 1) init (by omega)⟩

/-- Witness for C8 at concrete data: with fuel `9` the loop computes the
same fixed point as with the canonical fuel, and that fixed point admits no
further removals. -/
theorem c8_resolution_loop_terminates_witness :
    resolveLoopAux w8State w8Normalized (moveOrdersOf w8Normalized) w8Strength
        w8Strength 9 [("p1", "u1"), ("p2", "u2")]
      = resolveLoop w8State w8Normalized (moveOrdersOf w8Normalized) w8Strength
        w8Strength [("p1", "u1"), ("p2", "u2")]
      ∧ resolveRemovals w8State w8Normalized (moveOrdersOf w8Normalized)
          w8Strength w8Strength
          (resolveLoop w8State w8Normalized (moveOrdersOf w8Normalized)
            w8Strength w8Strength [("p1", "u1"), ("p2", "u2")]) = [] :=
  c8_resolution_loop_terminates w8State w8Normalized (moveOrdersOf w8Normalized)
    w8Strength w8Strength [("p1", "u1"), ("p2", "u2")] 9 (by decide)

/-! ## C3 — adjudication preserves single occupancy -/

/-- The resolution loop only filters the candidate set. -/
theorem successfulFor_subset_candidates (s : GameState)
    (orders : List (UnitKey × Order)) :
    ∀ k ∈ successfulFor s orders, k ∈ candidatesFor s orders := fun _ hk =>
  (resolveLoopAux_sublist s (normalizeOrders s orders) (movesFor s orders)
    (moveStrengthFor s orders) (holdStrengthFor s orders) _
    (candidatesFor s orders)).subset hk

/-- `adjudicate_orders` is `_apply_moves` of its computed move orders and
surviving successful moves. -/
theorem adjudicate_eq_applyMoves (s : GameState)
    (orders : List (UnitKey × Order)) :
    adjudicate_orders s orders
      = applyMoves s (movesFor s orders) (successfulFor s orders) := rfl

/-- `_apply_moves` preserves single occupancy whenever the successful moves
all are moves with pairwise distinct destinations. -/
theorem noCollision_applyMoves (s : GameState) (mo : List (UnitKey × Node))
    (succ : List UnitKey) (hwf : StateWF s) (hnc : NoCollision s)
    (hlk : ∀ k ∈ succ, ∃ t, mo.lookup k = some t)
    (hinj : ∀ k₁ ∈ succ, ∀ k₂ ∈ succ, mo.lookup k₁ = mo.lookup k₂ → k₁ = k₂) :
    NoCollision (applyMoves s mo succ) := by
  have hposinj := (noCollision_iff hwf).mp hnc
  apply (noCollision_iff (applyMoves_wf s mo succ hwf)).mpr
  intro k₁ k₂ n h₁ h₂
  rw [posOf_applyMoves] at h₁ h₂
  cases hp₁ : posOf s k₁ with
  | none => rw [hp₁] at h₁; cases h₁
  | some loc₁ =>
  cases hp₂ : posOf s k₂ with
  | none => rw [hp₂] at h₂; cases h₂
  | some loc₂ =>
  rw [hp₁] at h₁
  rw [hp₂] at h₂
  replace h₁ : (if k₁ ∈ dislodgedOf s mo succ then none
      else if k₁ ∈ succ then some ((mo.lookup k₁).getD loc₁)
      else some loc₁) = some n := h₁
  replace h₂ : (if k₂ ∈ dislodgedOf s mo succ then none
      else if k₂ ∈ succ then some ((mo.lookup k₂).getD loc₂)
      else some loc₂) = some n := h₂
  by_cases hd₁ : k₁ ∈ dislodgedOf s mo succ
  · rw [if_pos hd₁] at h₁; cases h₁
  by_cases hd₂ : k₂ ∈ dislodgedOf s mo succ
  · rw [if_pos hd₂] at h₂; cases h₂
  rw [if_neg hd₁] at h₁
  rw [if_neg hd₂] at h₂
  have hblock : ∀ kₐ k_b : UnitKey, kₐ ∈ succ → mo.lookup kₐ = some n →
      k_b ∉ succ → posOf s k_b = some n → k_b ∉ dislodgedOf s mo succ → False := by
    intro kₐ k_b hsa hla hsb hpb hdb
    obtain ⟨dk, hdk⟩ :=
      unitAtNode_complete ((posOf_eq_some_iff hwf).mp hpb)
    have hdkpos : posOf s dk = some n :=
      (posOf_eq_some_iff hwf).mpr (unitAtNode_sound hdk)
    have hdkb : dk = k_b := hposinj dk k_b n hdkpos hpb
    subst hdkb
    exact hdb (mem_dislodgedOf hsa hla hdk hsb)
  by_cases hs₁ : k₁ ∈ succ
  · obtain ⟨t₁, hl₁⟩ := hlk k₁ hs₁
    rw [if_pos hs₁, hl₁] at h₁
    simp only [Option.getD_some] at h₁
    injection h₁ with h₁
    subst h₁
    by_cases hs₂ : k₂ ∈ succ
    · obtain ⟨t₂, hl₂⟩ := hlk k₂ hs₂
      rw [if_pos hs₂, hl₂] at h₂
      simp only [Option.getD_some] at h₂
      injection h₂ with h₂
      subst h₂
      exact hinj k₁ hs₁ k₂ hs₂ (by rw [hl₁, hl₂])
    · rw [if_neg hs₂] at h₂
      injection h₂ with h₂
      subst h₂
      exact absurd (hblock k₁ k₂ hs₁ hl₁ hs₂ hp₂ hd₂) not_false
  · rw [if_neg hs₁] at h₁
    injection h₁ with h₁
    subst h₁
    by_cases hs₂ : k₂ ∈ succ
    · obtain ⟨t₂, hl₂⟩ := hlk k₂ hs₂
      rw [if_pos hs₂, hl₂] at h₂
      simp only [Option.getD_some] at h₂
      injection h₂ with h₂
      subst h₂
      exact absurd (hblock k₂ k₁ hs₂ hl₂ hs₁ hp₁ hd₁) not_false
    · rw [if_neg hs₂] at h₂
      injection h₂ with h₂
      subst h₂
      exact hposinj k₁ k₂ loc₂ hp₁ hp₂

/-- C3: if no two distinct units of the input state occupy the same node
(and the state is dict-well-formed), then the state returned by
`adjudicate_orders` also has no two distinct units on the same node:
winning movers have pairwise distinct destinations, and a standing occupant
of a taken destination is dislodged rather than shared with. -/
theorem c3_adjudicate_preserves_no_collision (s : GameState)
    (orders : List (UnitKey × Order)) (hwf : StateWF s) (hnc : NoCollision s) :
    NoCollision (adjudicate_orders s orders) := by
  have hnd : ((movesFor s orders).map Prod.fst).Nodup :=
    moveOrders_keys_nodup s orders hwf
  rw [adjudicate_eq_applyMoves]
  apply noCollision_applyMoves s _ _ hwf hnc
  · intro k hk
    obtain ⟨t, hlt, _⟩ :=
      candidate_lookup hnd (successfulFor_subset_candidates s orders k hk)
    exact ⟨t, hlt⟩
  · intro k₁ hk₁ k₂ hk₂ heq
    exact candidate_injective hnd
      (successfulFor_subset_candidates s orders k₁ hk₁)
      (successfulFor_subset_candidates s orders k₂ hk₂) heq

/-- Witness for C3 at a concrete state: the dislodging scenario keeps the
single-occupancy invariant. -/
theorem c3_adjudicate_preserves_no_collision_witness :
    NoCollision (adjudicate_orders w3State w3Orders) :=
  c3_adjudicate_preserves_no_collision w3State w3Orders (by decide) (by decide)

/-! ## C4 — tied movers never relocate -/

/-- C4 (amended): a mover whose strength ties the maximum at a contested
destination (with at least two tied movers) never relocates — in the output
it is either still at its original node or dislodged and removed; by the
counterexample below, removal really happens, so "remains at its original
node" does not hold as stated. -/
theorem c4_tied_movers_do_not_relocate (s : GameState)
    (orders : List (UnitKey × Order)) (d : Node) (k : UnitKey)
    (hwf : StateWF s)
    (htied : k ∈ strongestAt (movesFor s orders) (moveStrengthFor s orders) d)
    (htwo : 2 ≤ (strongestAt (movesFor s orders)
      (moveStrengthFor s orders) d).length) :
    posOf (adjudicate_orders s orders) k = none
      ∨ posOf (adjudicate_orders s orders) k = posOf s k := by
  have hnd : ((movesFor s orders).map Prod.fst).Nodup :=
    moveOrders_keys_nodup s orders hwf
  have hkd : (movesFor s orders).lookup k = some d :=
    lookup_of_mem_of_nodup hnd (strongestAt_subset htied)
  have hnotc : k ∉ candidatesFor s orders := by
    intro hc
    obtain ⟨t, hlt, hst⟩ := candidate_lookup hnd hc
    rw [hkd] at hlt
    injection hlt with hlt
    subst hlt
    rw [hst] at htwo
    simp at htwo
  have hnots : k ∉ successfulFor s orders := fun hs =>
    hnotc (successfulFor_subset_candidates s orders k hs)
  rw [adjudicate_eq_applyMoves, posOf_applyMoves]
  cases hp : posOf s k with
  | none => exact Or.inl rfl
  | some loc =>
    by_cases hd : k ∈ dislodgedOf s (movesFor s orders) (successfulFor s orders)
    · left
      show (if k ∈ dislodgedOf s (movesFor s orders) (successfulFor s orders)
          then none
          else if k ∈ successfulFor s orders then
            some (((movesFor s orders).lookup k).getD loc)
          else some loc) = none
      rw [if_pos hd]
    · right
      show (if k ∈ dislodgedOf s (movesFor s orders) (successfulFor s orders)
          then none
          else if k ∈ successfulFor s orders then
            some (((movesFor s orders).lookup k).getD loc)
          else some loc) = some loc
      rw [if_neg hd, if_neg hnots]

/-- C4, counterexample to the claim as stated: in the `c4State` scenario
`u1` ties for the maximum at the contested destination `D` (two movers of
strength 1), yet it does not remain at its original node `A` — `p3`'s
supported attack dislodges it and it is removed from the board. -/
theorem c4_counterexample_tied_mover_removed :
    (("p1", "u1") ∈ strongestAt (movesFor c4State c4Orders)
        (moveStrengthFor c4State c4Orders) "D")
      ∧ 2 ≤ (strongestAt (movesFor c4State c4Orders)
          (moveStrengthFor c4State c4Orders) "D").length
      ∧ posOf c4State ("p1", "u1") = some "A"
      ∧ posOf (adjudicate_orders c4State c4Orders) ("p1", "u1") = none := by
  decide

/-- Witness for the amended C4 at the concrete scenario. -/
theorem c4_tied_movers_do_not_relocate_witness :
    posOf (adjudicate_orders c4State c4Orders) ("p1", "u1") = none
      ∨ posOf (adjudicate_orders c4State c4Orders) ("p1", "u1")
        = posOf c4State ("p1", "u1") :=
  c4_tied_movers_do_not_relocate c4State c4Orders "D" ("p1", "u1")
    (by decide) (by decide) (by decide)

/-! ## Fidelity of the embedding on the repository's adjudicator tests

The three scenarios below are the tests of `tests/test_adjudicator.py` that
the source passes; the embedding reproduces their expected outcomes. -/

/-- Scenario of `test_supported_move_beats_unsupported_hold`: the supported
attack dislodges the holding defender and takes its node. -/
theorem embedding_matches_supported_move_test :
    (adjudicate_orders
      ⟨[("p1", [("u1", "A"), ("s1", "C")]), ("p2", [("u2", "B")])], [], 0⟩
      [(("p1", "u1"), .move "p1" "u1" "B"),
       (("p1", "s1"), .support "p1" "s1" "p1" "u1" "A" (some "B")),
       (("p2", "u2"), .hold "p2" "u2")]).units
      = [("p1", [("u1", "B"), ("s1", "C")]), ("p2", [])] := by decide

/-- Scenario of `test_supported_hold_blocks_unsupported_attack`: the
supported hold repels the unsupported attack and both units stay. -/
theorem embedding_matches_supported_hold_test :
    (adjudicate_orders
      ⟨[("p1", [("u1", "A")]), ("p2", [("u2", "B"), ("s1", "C")])], [], 0⟩
      [(("p1", "u1"), .move "p1" "u1" "B"),
       (("p2", "u2"), .hold "p2" "u2"),
       (("p2", "s1"), .support "p2" "s1" "p2" "u2" "B" none)]).units
      = [("p1", [("u1", "A")]), ("p2", [("u2", "B"), ("s1", "C")])] := by decide

/-- Scenario of `test_two_supported_moves_tie_and_bounce`: two equally
supported attacks on the same node both bounce. -/
theorem embedding_matches_tie_bounce_test :
    (adjudicate_orders
      ⟨[("p1", [("u1", "A"), ("s1", "C")]), ("p2", [("u2", "D"), ("s2", "E")])], [], 0⟩
      [(("p1", "u1"), .move "p1" "u1" "B"),
       (("p1", "s1"), .support "p1" "s1" "p1" "u1" "A" (some "B")),
       (("p2", "u2"), .move "p2" "u2" "B"),
       (("p2", "s2"), .support "p2" "s2" "p2" "u2" "D" (some "B"))]).units
      = [("p1", [("u1", "A"), ("s1", "C")]), ("p2", [("u2", "D"), ("s2", "E")])] := by
  decide

/-! ## C1 — equal-strength head-to-head swap

The state and orders of `test_head_to_head_equal_strength_bounces`:
`p1`'s unit at `A` and `p2`'s unit at `B` order the unsupported swap. -/

/-- C1: contrary to the claim (and to the repository's own test
`test_head_to_head_equal_strength_bounces`), the adjudicator lets an
equal-strength head-to-head swap succeed: each mover sees the other as a
successful mover vacating its destination, so neither is ever removed from
the success set, and the two units exchange nodes instead of bouncing. -/
theorem c1_code_swaps_equal_strength_head_to_head :
    posOf (adjudicate_orders c1State c1Orders) ("p1", "u1") = some "B"
      ∧ posOf (adjudicate_orders c1State c1Orders) ("p2", "u2") = some "A"
      ∧ posOf c1State ("p1", "u1") = some "A"
      ∧ posOf c1State ("p2", "u2") = some "B" := by decide

/-! ## C2 — `validate_map` and edges over unknown nodes -/

/-- Building the graph inserts both endpoints of every edge as graph nodes,
so the `has_node` guard of `validate_map` holds for every edge endpoint:
the "map edge references unknown node" branch is unreachable. -/
theorem graphHasNode_of_mem_edges (m : MapDef) (l r : Node)
    (h : (l, r) ∈ m.edges) : graphHasNode m l = true ∧ graphHasNode m r = true := by
  constructor <;>
    · simp only [graphHasNode, Bool.or_eq_true, List.any_eq_true]
      exact Or.inr ⟨(l, r), h, by simp⟩

/-- C2: contrary to the claim, `validate_map` accepts a map whose edge
references a node outside the node set — `_build_graph` adds edge endpoints
as graph nodes, making the unknown-node check vacuous. -/
theorem c2_validate_map_accepts_unknown_edge_node :
    validate_map c2BadMap = .ok ()
      ∧ "B" ∉ c2BadMap.nodes := by
  exact ⟨rfl, by decide⟩

/-! ## C10 — the adjudicator changes only `units` -/

/-- C10: the state returned by `adjudicate_orders` keeps the input's
`center_owner` and `turn` unchanged; only the `units` mapping is replaced.
Supply-center capture and turn advancement happen in `Game.step`, outside
the adjudicator. -/
theorem c10_adjudicate_preserves_center_owner_and_turn
    (s : GameState) (orders : List (UnitKey × Order)) :
    (adjudicate_orders s orders).center_owner = s.center_owner
      ∧ (adjudicate_orders s orders).turn = s.turn :=
  ⟨rfl, rfl⟩

end DipTom
